import Mathlib

/-!
Verification of the sharestats ETL ingestion pipeline.

We give a shallow embedding of the content-addressed PDF ingestion code
(`dsst_etl/upload_pdfs.py`), the RTransparent metrics uploader
(`dsst_etl/upload_rtransparent_data.py`) and the exit behaviour of the two
CLI entry points (`scripts/filter_cli.py`, `scripts/hhs_doi_cli.py`), and
prove the documented ingestion invariants against it.

The relational store is modelled as explicit lists of rows together with
the autoincrement counters of the three primary keys.  Each SQLAlchemy
`commit` of the source corresponds to producing the next `DB` value; a
rolled-back insert leaves the `DB` value unchanged.  The MD5 content
digest, the S3 bucket name and the per-file outcome of the S3 upload are
parameters of the model: none of the proved properties depend on the
concrete digest beyond digest equality/inequality of the inputs, which is
exactly how the source uses it (the digest is only ever compared against
the unique index on `documents.hash_data`).
-/

set_option autoImplicit false

namespace DsstEtl

/-- A PDF file handed to the uploader: its filesystem path and its raw
byte content (bytes as `Nat`). -/
structure PdfFile where
  path : String
  content : List Nat
deriving DecidableEq

/-- Python's `os.path.basename`: the component of the path after the last
slash. -/
def basename (p : String) : String :=
  String.mk ((p.data.reverse.takeWhile fun c => c != '/').reverse)

/-- A row of the `documents` table (`models.Documents`).  `work_id` is the
back-reference assigned by `upload_pdfs.py` (`document.work_id = ...`); the
committed schema drift around this column is noted in the spec, and we model
the code's view, in which the assignment is part of the committed row. -/
structure Documents where
  id : Nat
  hash_data : String
  s3uri : String
  provenance_id : Option Nat
  work_id : Option Nat
deriving DecidableEq

/-- A row of the `works` table (`models.Works`). -/
structure Works where
  id : Nat
  initial_document_id : Option Nat
  primary_document_id : Option Nat
  provenance_id : Option Nat
deriving DecidableEq

/-- A row of the `provenance` table (`models.Provenance`). -/
structure Provenance where
  id : Nat
  pipeline_name : String
  version : String
  compute : String
  personnel : String
  comment : Option String
deriving DecidableEq

/-- The relational state: the three tables touched by the PDF ingestion
pipeline, together with the next value of each autoincrement primary key. -/
@[ext]
structure DB where
  documents : List Documents
  works : List Works
  provenances : List Provenance
  nextDocumentId : Nat
  nextWorkId : Nat
  nextProvenanceId : Nat
deriving DecidableEq

/-- A document row with the given content digest is already committed. -/
def hashPresent (db : DB) (h : String) : Prop :=
  h ∈ db.documents.map (·.hash_data)

instance (db : DB) (h : String) : Decidable (hashPresent db h) := by
  unfold hashPresent; infer_instance

/-- Number of committed document rows carrying a given `hash_data`. -/
def countHash (db : DB) (h : String) : Nat :=
  (db.documents.filter fun d => d.hash_data == h).length

/-- The unique index `uq_documents_hash_data`: no two committed document
rows share a content digest. -/
def UniqueHashes (db : DB) : Prop :=
  db.documents.Pairwise fun a b => a.hash_data ≠ b.hash_data

instance (db : DB) : Decidable (UniqueHashes db) := by
  unfold UniqueHashes; infer_instance

/-- Primary keys already handed out are below the autoincrement counter. -/
def DocIdsBounded (db : DB) : Prop :=
  ∀ d ∈ db.documents, d.id < db.nextDocumentId

instance (db : DB) : Decidable (DocIdsBounded db) := by
  unfold DocIdsBounded; infer_instance

section Uploader

variable (md5Hex : List Nat → String) (bucket : String) (uploadOk : PdfFile → Bool)
variable (version compute personnel : String)

/-- S3 key used for an uploaded PDF: `pdfs/<basename>` (upload_pdfs.py line 58). -/
def s3Key (f : PdfFile) : String := "pdfs/" ++ basename f.path

/-- Stored locator of a document: `s3://<bucket>/<key>` (upload_pdfs.py line 91). -/
def s3Uri (f : PdfFile) : String := "s3://" ++ bucket ++ "/" ++ s3Key f

/-- PDFUploader.upload_pdfs: attempts the S3 upload of every file, in
order; a file whose upload raises is logged and appended to the failed
list, the others to the successful list.  `uploadOk` is the outcome of the
S3 call for each file. -/
def upload_pdfs (pdf_paths : List PdfFile) : List PdfFile × List PdfFile :=
  (pdf_paths.filter uploadOk, pdf_paths.filter fun f => !uploadOk f)

/-- One iteration of the loop of PDFUploader.create_document_records: build
the row from the digest and the S3 locator and try to commit it.  The
unique index on `hash_data` makes the commit fail exactly when a row with
the same digest is already committed; the except-branch rolls the session
back, leaving the state unchanged and producing no row. -/
def insertDocument (db : DB) (f : PdfFile) : DB × Option Documents :=
  let hd := md5Hex f.content
  let doc : Documents :=
    { id := db.nextDocumentId, hash_data := hd, s3uri := s3Uri bucket f,
      provenance_id := none, work_id := none }
  if hashPresent db hd then
    (db, none)
  else
    ({ db with
        documents := db.documents ++ [doc],
        nextDocumentId := db.nextDocumentId + 1 },
     some doc)

/-- PDFUploader.create_document_records: per file, compute the digest and
attempt an individually committed insert; duplicates are skipped with a
warning.  Returns the list of newly created rows and the resulting state. -/
def create_document_records (db : DB) (successful_uploads : List PdfFile) :
    List Documents × DB :=
  match successful_uploads with
  | [] => ([], db)
  | f :: rest =>
    match insertDocument md5Hex bucket db f with
    | (db1, some d) =>
      let r := create_document_records db1 rest
      (d :: r.1, r.2)
    | (db1, none) => create_document_records db1 rest

/-- PDFUploader.create_provenance_record: insert one provenance row for
the batch, flush to obtain its id, stamp every document of the batch with
that id, and commit. -/
def create_provenance_record (db : DB) (docIds : List Nat)
    (comment : Option String) : Provenance × DB :=
  let prov : Provenance :=
    { id := db.nextProvenanceId, pipeline_name := "Document Upload",
      version := version, compute := compute, personnel := personnel,
      comment := comment }
  (prov,
   { db with
      provenances := db.provenances ++ [prov],
      documents := db.documents.map fun d =>
        if d.id ∈ docIds then { d with provenance_id := some prov.id } else d,
      nextProvenanceId := db.nextProvenanceId + 1 })

/-- PDFUploader.initial_work_for_document: create and commit a work whose
initial and primary document are the given document, then set the
document's back-reference to the new work and commit again. -/
def initial_work_for_document (db : DB) (docId provId : Nat) : Works × DB :=
  let work : Works :=
    { id := db.nextWorkId, initial_document_id := some docId,
      primary_document_id := some docId, provenance_id := some provId }
  (work,
   { db with
      works := db.works ++ [work],
      nextWorkId := db.nextWorkId + 1,
      documents := db.documents.map fun d =>
        if d.id = docId then { d with work_id := some work.id } else d })

/-- PDFUploader.link_documents_to_work: for each given id, fetch the
document row if it exists and set its `work_id`; ids with no matching row
are skipped; one commit at the end. -/
def link_documents_to_work (db : DB) (document_ids : List Nat)
    (workId : Nat) : DB :=
  { db with
      documents := db.documents.map fun d =>
        if d.id ∈ document_ids then { d with work_id := some workId } else d }

/-- upload_directory: the batch workflow.  Upload every file; if any file
was uploaded, create document records for the successes; if any document is
new, create the batch provenance record and then an initial work per new
document. -/
def upload_directory (db : DB) (pdf_files : List PdfFile)
    (comment : Option String) : DB :=
  if pdf_files.isEmpty then db
  else
    let successful_uploads := (upload_pdfs uploadOk pdf_files).1
    if successful_uploads.isEmpty then db
    else
      let r := create_document_records md5Hex bucket db successful_uploads
      if r.1.isEmpty then r.2
      else
        let pr := create_provenance_record version compute personnel r.2
          (r.1.map (·.id)) comment
        r.1.foldl (fun s d => (initial_work_for_document s d.id pr.1.id).2) pr.2

/-- The rows that a run of create_document_records produces when every
input is fresh: one row per file, ids counted up from `n`, no provenance
and no work back-reference yet. -/
def buildDocs : Nat → List PdfFile → List Documents
  | _, [] => []
  | n, f :: rest =>
    { id := n, hash_data := md5Hex f.content, s3uri := s3Uri bucket f,
      provenance_id := none, work_id := none } :: buildDocs (n + 1) rest

/-- The final document and work rows a fully fresh batch adds: document
ids counted up from `n`, work ids from `w`, every row stamped with the
batch provenance `provId`, the k-th document linked to the k-th work. -/
def ingestFresh (provId : Nat) : Nat → Nat → List PdfFile → List Documents × List Works
  | _, _, [] => ([], [])
  | n, w, f :: rest =>
    let r := ingestFresh provId (n + 1) (w + 1) rest
    ({ id := n, hash_data := md5Hex f.content, s3uri := s3Uri bucket f,
       provenance_id := some provId, work_id := some w } :: r.1,
     { id := w, initial_document_id := some n, primary_document_id := some n,
       provenance_id := some provId } :: r.2)

end Uploader

/-- Pointwise effect on one document row of running
initial_work_for_document over documents with the given ids, work ids
counted up from `w`. -/
def assignWork (w : Nat) : List Nat → Documents → Documents
  | [], d => d
  | i :: rest, d =>
    if d.id = i then { d with work_id := some w } else assignWork (w + 1) rest d

/-- Work rows created by running initial_work_for_document over documents
with the given ids, work ids counted up from `w`. -/
def worksFor (w provId : Nat) : List Nat → List Works
  | [] => []
  | i :: rest =>
    { id := w, initial_document_id := some i, primary_document_id := some i,
      provenance_id := some provId } :: worksFor (w + 1) provId rest

/-- Concrete digest function used by the witnesses: distinguishes byte
lists by their first byte. -/
def wMd5 : List Nat → String := fun c => "h" ++ toString (c.headD 0)

/-- Empty relational state used by the witnesses. -/
def emptyDB : DB := ⟨[], [], [], 0, 0, 0⟩

/-- Sample file used by the witnesses. -/
def wFileA : PdfFile := ⟨"a.pdf", [0]⟩

/-- A digest-equal copy of `wFileA` under another path. -/
def wFileACopy : PdfFile := ⟨"dir/a_copy.pdf", [0]⟩

/-- Upload oracle for witnesses in which every S3 upload succeeds. -/
def wUploadAll : PdfFile → Bool := fun _ => true

/-- Second sample file, digest-distinct from `wFileA`. -/
def wFileB : PdfFile := ⟨"b.pdf", [1]⟩

/-- Third sample file, digest-distinct from `wFileA` and `wFileB`. -/
def wFileC : PdfFile := ⟨"c.pdf", [2]⟩

/-- Upload oracle for witnesses in which exactly the upload of `wFileB`
raises. -/
def wUploadNotB : PdfFile → Bool := fun f => !(f.path == "b.pdf")

/-- Sample file named a.pdf in one directory. -/
def wSameNameX : PdfFile := ⟨"x/a.pdf", [1]⟩

/-- Sample file also named a.pdf, in another directory, with different
content. -/
def wSameNameY : PdfFile := ⟨"y/a.pdf", [2]⟩

/-- Store that already holds the document of `wFileA`, as left by a
previous ingestion run. -/
def wDB1 : DB :=
  ⟨[⟨0, "h0", "s3://bkt/pdfs/a.pdf", none, none⟩], [], [], 1, 0, 0⟩

end DsstEtl


namespace RTransparent

/-- Value of the `funder` column as read from the Feather/Parquet file:
absent, already a string, or a numpy array of strings. -/
inductive FunderValue
  | missing
  | text (s : String)
  | array (l : List String)
deriving DecidableEq

/-- A row of the `rtransparent_publication` table
(`models.RTransparentPublication`); the ~140 analysis columns are
represented by `title`, the claim-relevant columns are `work_id`,
`provenance_id` and `funder`. -/
structure RTransparentPublication where
  title : Option String
  funder : FunderValue
  work_id : Option Nat
  provenance_id : Option Nat
deriving DecidableEq

/-- The metrics table state. -/
structure RTDB where
  rtransparent_publication : List RTransparentPublication
deriving DecidableEq

/-- upload_rtransparent_data.py lines 48-65: the constructed record is the
input row with a numpy-array funder joined with ", ", and `work_id` and
`provenance_id` explicitly overwritten with None (no source document is
available on this path). -/
def toPublication (r : RTransparentPublication) : RTransparentPublication :=
  { r with
      funder := match r.funder with
        | .array l => .text (String.intercalate ", " l)
        | v => v,
      work_id := none,
      provenance_id := none }

/-- Python's `range(0, len(l), n)` slicing of upload_data: the list cut
into consecutive chunks of `n`.  For `n = 0` Python's `range` raises
before anything is inserted; the model returns no chunks, which likewise
inserts nothing. -/
def chunksOf (n : Nat) (l : List RTransparentPublication) :
    List (List RTransparentPublication) :=
  if h : n = 0 ∨ l = [] then []
  else l.take n :: chunksOf n (l.drop n)
termination_by l.length
decreasing_by
  push_neg at h
  simp only [List.length_drop]
  have h1 : 0 < l.length := List.length_pos.mpr h.2
  omega

/-- RTransparentDataUploader.upload_data: process the file's rows in
chunks of `n_rows`; per chunk, construct the publication records and bulk
insert them with one commit. -/
def upload_data (db : RTDB) (data : List RTransparentPublication)
    (n_rows : Nat) : RTDB :=
  (chunksOf n_rows data).foldl
    (fun s chunk =>
      { s with rtransparent_publication :=
          s.rtransparent_publication ++ chunk.map toPublication })
    db

end RTransparent

namespace Cli

/-- How a CLI `main()` invocation ends: returning normally (the
interpreter then exits with status 0) or with an uncaught exception (the
interpreter exits with a non-zero status). -/
inductive ExitKind
  | normal
  | raised
deriving DecidableEq

/-- Process exit status resulting from each way `main()` can end. -/
def exitCode : ExitKind → Nat
  | .normal => 0
  | .raised => 1

/-- scripts/filter_cli.py main, lines 100-107: when the input path is not
a directory it prints an error message and returns None; otherwise it runs
the extraction and returns None. -/
def filter_main (input_dir_is_dir : Bool) : ExitKind :=
  if input_dir_is_dir = false then ExitKind.normal
  else ExitKind.normal

/-- scripts/hhs_doi_cli.py main, lines 259-272: when the input path is not
a directory it prints an error message and returns None; otherwise
extract_pdf_metadata runs, which raises FileExistsError when the output
file exists and new_run is set, and returns None otherwise. -/
def hhs_doi_main (input_dir_is_dir output_exists new_run : Bool) : ExitKind :=
  if input_dir_is_dir = false then ExitKind.normal
  else if output_exists && new_run then ExitKind.raised
  else ExitKind.normal

end Cli

namespace DsstEtl

section UploaderLemmas

variable (md5Hex : List Nat → String) (bucket : String) (uploadOk : PdfFile → Bool)
variable (version compute personnel : String)

theorem hashPresent_iff (db : DB) (h : String) :
    hashPresent db h ↔ ∃ d ∈ db.documents, d.hash_data = h := by
  simp [hashPresent, List.mem_map]

theorem not_hashPresent_iff (db : DB) (h : String) :
    ¬ hashPresent db h ↔ ∀ d ∈ db.documents, d.hash_data ≠ h := by
  simp [hashPresent_iff]

theorem insertDocument_present {db : DB} {f : PdfFile}
    (h : hashPresent db (md5Hex f.content)) :
    insertDocument md5Hex bucket db f = (db, none) := by
  simp [insertDocument, h]

theorem insertDocument_fresh {db : DB} {f : PdfFile}
    (h : ¬ hashPresent db (md5Hex f.content)) :
    insertDocument md5Hex bucket db f =
      ({ db with
          documents := db.documents ++
            [{ id := db.nextDocumentId, hash_data := md5Hex f.content,
               s3uri := s3Uri bucket f, provenance_id := none, work_id := none }],
          nextDocumentId := db.nextDocumentId + 1 },
       some { id := db.nextDocumentId, hash_data := md5Hex f.content,
              s3uri := s3Uri bucket f, provenance_id := none, work_id := none }) := by
  simp [insertDocument, h]

theorem cdr_documents (b : List PdfFile) : ∀ db : DB,
    ((create_document_records md5Hex bucket db b).2).documents
      = db.documents ++ (create_document_records md5Hex bucket db b).1 := by
  induction b with
  | nil => intro db; simp [create_document_records]
  | cons f rest ih =>
    intro db
    by_cases h : hashPresent db (md5Hex f.content)
    · rw [create_document_records, insertDocument_present md5Hex bucket h]
      simpa using ih db
    · rw [create_document_records, insertDocument_fresh md5Hex bucket h]
      simp only []
      rw [ih]
      simp

theorem cdr_frame (b : List PdfFile) : ∀ db : DB,
    ((create_document_records md5Hex bucket db b).2).works = db.works ∧
    ((create_document_records md5Hex bucket db b).2).provenances = db.provenances ∧
    ((create_document_records md5Hex bucket db b).2).nextWorkId = db.nextWorkId ∧
    ((create_document_records md5Hex bucket db b).2).nextProvenanceId
      = db.nextProvenanceId := by
  induction b with
  | nil => intro db; simp [create_document_records]
  | cons f rest ih =>
    intro db
    by_cases h : hashPresent db (md5Hex f.content)
    · rw [create_document_records, insertDocument_present md5Hex bucket h]
      simpa using ih db
    · rw [create_document_records, insertDocument_fresh md5Hex bucket h]
      simpa using ih _

theorem cdr_uniqueHashes (b : List PdfFile) : ∀ db : DB,
    UniqueHashes db → UniqueHashes (create_document_records md5Hex bucket db b).2 := by
  induction b with
  | nil => intro db hu; simpa [create_document_records] using hu
  | cons f rest ih =>
    intro db hu
    by_cases h : hashPresent db (md5Hex f.content)
    · rw [create_document_records, insertDocument_present md5Hex bucket h]
      exact ih db hu
    · rw [create_document_records, insertDocument_fresh md5Hex bucket h]
      refine ih _ ?_
      unfold UniqueHashes at hu ⊢
      simp only [List.pairwise_append, List.pairwise_cons]
      refine ⟨hu, by simp, ?_⟩
      intro a ha c hc
      simp only [List.mem_singleton] at hc
      subst hc
      exact (not_hashPresent_iff db (md5Hex f.content)).mp h a ha

theorem hashPresent_cdr_mono (b : List PdfFile) (db : DB) (s : String)
    (h : hashPresent db s) :
    hashPresent (create_document_records md5Hex bucket db b).2 s := by
  rcases (hashPresent_iff db s).mp h with ⟨d, hd, hds⟩
  refine (hashPresent_iff _ s).mpr ⟨d, ?_, hds⟩
  rw [cdr_documents]
  exact List.mem_append_left _ hd

theorem hashPresent_cdr_of_mem (b : List PdfFile) : ∀ db : DB, ∀ f ∈ b,
    hashPresent (create_document_records md5Hex bucket db b).2 (md5Hex f.content) := by
  induction b with
  | nil => intro db f hf; cases hf
  | cons g rest ih =>
    intro db f hf
    by_cases h : hashPresent db (md5Hex g.content)
    · rw [create_document_records, insertDocument_present md5Hex bucket h]
      rcases List.mem_cons.mp hf with hfg | hfr
      · subst hfg; exact hashPresent_cdr_mono md5Hex bucket rest db _ h
      · exact ih db f hfr
    · rw [create_document_records, insertDocument_fresh md5Hex bucket h]
      simp only []
      rcases List.mem_cons.mp hf with hfg | hfr
      · subst hfg
        refine hashPresent_cdr_mono md5Hex bucket rest _ _ ?_
        refine (hashPresent_iff _ _).mpr ⟨_, List.mem_append_right _ (List.mem_singleton.mpr rfl), rfl⟩
      · exact ih _ f hfr

theorem cdr_all_present (b : List PdfFile) : ∀ db : DB,
    (∀ f ∈ b, hashPresent db (md5Hex f.content)) →
    create_document_records md5Hex bucket db b = ([], db) := by
  induction b with
  | nil => intro db _; rfl
  | cons f rest ih =>
    intro db hall
    rw [create_document_records,
      insertDocument_present md5Hex bucket (hall f (List.mem_cons_self f rest))]
    exact ih db fun g hg => hall g (List.mem_cons_of_mem _ hg)

theorem countHash_le_one_of_pairwise (s : String) :
    ∀ l : List Documents, (l.Pairwise fun a b => a.hash_data ≠ b.hash_data) →
    (l.filter fun d => d.hash_data == s).length ≤ 1 := by
  intro l
  induction l with
  | nil => intro _; simp
  | cons d rest ih =>
    intro hp
    rw [List.pairwise_cons] at hp
    by_cases hds : d.hash_data = s
    · have hrest : (rest.filter fun e => e.hash_data == s) = [] := by
        rw [List.filter_eq_nil_iff]
        intro e he
        have := hp.1 e he
        simp only [beq_iff_eq]
        rw [hds] at this
        exact fun hes => this hes.symm
      simp [List.filter_cons, hds, hrest]
    · simp only [List.filter_cons, beq_iff_eq, hds, if_false]
      exact ih hp.2

theorem countHash_le_one {db : DB} (h : UniqueHashes db) (s : String) :
    countHash db s ≤ 1 :=
  countHash_le_one_of_pairwise s db.documents h

theorem cdr_eq_of_no_new (b : List PdfFile) : ∀ db : DB,
    (create_document_records md5Hex bucket db b).1 = [] →
    (create_document_records md5Hex bucket db b).2 = db := by
  induction b with
  | nil => intro db _; rfl
  | cons f rest ih =>
    intro db hempty
    by_cases h : hashPresent db (md5Hex f.content)
    · rw [create_document_records, insertDocument_present md5Hex bucket h] at hempty ⊢
      exact ih db hempty
    · rw [create_document_records, insertDocument_fresh md5Hex bucket h] at hempty
      simp at hempty

theorem buildDocs_length : ∀ (b : List PdfFile) (n : Nat),
    (buildDocs md5Hex bucket n b).length = b.length := by
  intro b
  induction b with
  | nil => intro n; rfl
  | cons f rest ih => intro n; simp [buildDocs, ih]

theorem buildDocs_mem_ids : ∀ (b : List PdfFile) (n i : Nat),
    i ∈ (buildDocs md5Hex bucket n b).map (·.id) → n ≤ i ∧ i < n + b.length := by
  intro b
  induction b with
  | nil => intro n i hi; simp [buildDocs] at hi
  | cons f rest ih =>
    intro n i hi
    simp only [buildDocs, List.map_cons, List.mem_cons] at hi
    rcases hi with hi | hi
    · subst hi; simp
    · have := ih (n + 1) i hi
      simp only [List.length_cons]
      omega

theorem buildDocs_ids_pairwise : ∀ (b : List PdfFile) (n : Nat),
    ((buildDocs md5Hex bucket n b).map (·.id)).Pairwise (· ≠ ·) := by
  intro b
  induction b with
  | nil => intro n; simp [buildDocs]
  | cons f rest ih =>
    intro n
    simp only [buildDocs, List.map_cons, List.pairwise_cons]
    refine ⟨?_, ih (n + 1)⟩
    intro i hi
    have := buildDocs_mem_ids md5Hex bucket rest (n + 1) i hi
    omega

theorem cdr_fresh (b : List PdfFile) : ∀ db : DB,
    (∀ f ∈ b, ¬ hashPresent db (md5Hex f.content)) →
    (b.Pairwise fun a c => md5Hex a.content ≠ md5Hex c.content) →
    create_document_records md5Hex bucket db b
      = (buildDocs md5Hex bucket db.nextDocumentId b,
         { db with
            documents := db.documents ++ buildDocs md5Hex bucket db.nextDocumentId b,
            nextDocumentId := db.nextDocumentId + b.length }) := by
  induction b with
  | nil => intro db _ _; simp [create_document_records, buildDocs]
  | cons f rest ih =>
    intro db hfresh hdist
    rw [List.pairwise_cons] at hdist
    rw [create_document_records,
      insertDocument_fresh md5Hex bucket (hfresh f (List.mem_cons_self f rest))]
    simp only []
    rw [ih _ ?_ hdist.2]
    · simp only [buildDocs, Prod.mk.injEq, DB.mk.injEq, List.append_assoc,
        List.singleton_append, List.length_cons, true_and, and_true]
      omega
    · intro g hg
      simp only [hashPresent, List.map_append, List.mem_append, List.map_cons,
        List.map_nil, List.mem_cons, List.not_mem_nil, or_false, not_or]
      exact ⟨hfresh g (List.mem_cons_of_mem f hg),
        fun hsame => hdist.1 g hg hsame.symm⟩

theorem assignWork_of_not_mem : ∀ (ids : List Nat) (w : Nat) (d : Documents),
    d.id ∉ ids → assignWork w ids d = d := by
  intro ids
  induction ids with
  | nil => intro w d _; rfl
  | cons i rest ih =>
    intro w d hd
    rw [List.mem_cons, not_or] at hd
    rw [assignWork, if_neg hd.1]
    exact ih (w + 1) d hd.2

theorem assignWork_id : ∀ (ids : List Nat) (w : Nat) (d : Documents),
    (assignWork w ids d).id = d.id := by
  intro ids
  induction ids with
  | nil => intro w d; rfl
  | cons i rest ih =>
    intro w d
    rw [assignWork]
    by_cases h : d.id = i
    · rw [if_pos h]
    · rw [if_neg h]; exact ih (w + 1) d

theorem assignWork_frame : ∀ (ids : List Nat) (w : Nat) (d : Documents),
    (assignWork w ids d).hash_data = d.hash_data ∧
    (assignWork w ids d).s3uri = d.s3uri ∧
    (assignWork w ids d).provenance_id = d.provenance_id := by
  intro ids
  induction ids with
  | nil => intro w d; exact ⟨rfl, rfl, rfl⟩
  | cons i rest ih =>
    intro w d
    rw [assignWork]
    by_cases h : d.id = i
    · rw [if_pos h]; exact ⟨rfl, rfl, rfl⟩
    · rw [if_neg h]; exact ih (w + 1) d

theorem foldl_iwfd (ds : List Documents) : ∀ (db : DB) (provId : Nat),
    ((ds.map (·.id)).Pairwise (· ≠ ·)) →
    ds.foldl (fun s d => (initial_work_for_document s d.id provId).2) db
      = { db with
          documents := db.documents.map (assignWork db.nextWorkId (ds.map (·.id))),
          works := db.works ++ worksFor db.nextWorkId provId (ds.map (·.id)),
          nextWorkId := db.nextWorkId + ds.length } := by
  induction ds with
  | nil =>
    intro db provId _
    simp [worksFor, assignWork]
  | cons d ds ih =>
    intro db provId hpw
    simp only [List.map_cons, List.pairwise_cons] at hpw
    have hdnm : d.id ∉ ds.map (·.id) := fun hmem => hpw.1 _ hmem rfl
    rw [List.foldl_cons, ih _ provId hpw.2]
    simp only [initial_work_for_document]
    refine DB.ext ?_ ?_ ?_ ?_ ?_ ?_ <;>
      simp only [List.map_cons, List.map_map, List.append_assoc,
        List.singleton_append, List.length_cons, worksFor]
    · refine List.map_congr_left ?_
      intro x _
      simp only [Function.comp_apply]
      by_cases hx : x.id = d.id
      · rw [if_pos hx, assignWork, if_pos ?_]
        · rw [assignWork_of_not_mem _ _ _ ?_]
          simp only []
          rw [hx]
          exact hdnm
        · exact hx
      · rw [if_neg hx, assignWork, if_neg hx]
    · omega

theorem ingest_works_eq (provId : Nat) : ∀ (b : List PdfFile) (n w : Nat),
    worksFor w provId ((buildDocs md5Hex bucket n b).map (·.id))
      = (ingestFresh md5Hex bucket provId n w b).2 := by
  intro b
  induction b with
  | nil => intro n w; rfl
  | cons f rest ih =>
    intro n w
    simp only [buildDocs, List.map_cons, worksFor, ingestFresh]
    rw [ih (n + 1) (w + 1)]

theorem ingest_docs_eq (provId : Nat) : ∀ (b : List PdfFile) (n w : Nat),
    ((buildDocs md5Hex bucket n b).map
        (fun d => { d with provenance_id := some provId })).map
      (assignWork w ((buildDocs md5Hex bucket n b).map (·.id)))
      = (ingestFresh md5Hex bucket provId n w b).1 := by
  intro b
  induction b with
  | nil => intro n w; rfl
  | cons f rest ih =>
    intro n w
    simp only [buildDocs, List.map_cons, ingestFresh, List.cons.injEq]
    refine ⟨by rw [assignWork, if_pos rfl], ?_⟩
    have hcongr :
        ((buildDocs md5Hex bucket (n + 1) rest).map
            (fun d => { d with provenance_id := some provId })).map
          (assignWork w (n :: (buildDocs md5Hex bucket (n + 1) rest).map (·.id)))
        = ((buildDocs md5Hex bucket (n + 1) rest).map
            (fun d => { d with provenance_id := some provId })).map
          (assignWork (w + 1) ((buildDocs md5Hex bucket (n + 1) rest).map (·.id))) := by
      refine List.map_congr_left ?_
      intro x hx
      rw [assignWork, if_neg ?_]
      rcases List.mem_map.mp hx with ⟨y, hy, hxy⟩
      have hyb := buildDocs_mem_ids md5Hex bucket rest (n + 1) y.id
        (List.mem_map_of_mem _ hy)
      subst hxy
      simp only []
      omega
    rw [hcongr, ih (n + 1) (w + 1)]

theorem stamp_buildDocs (provId : Nat) (b : List PdfFile) (n : Nat) :
    (buildDocs md5Hex bucket n b).map
        (fun d => if d.id ∈ (buildDocs md5Hex bucket n b).map (·.id)
          then { d with provenance_id := some provId } else d)
      = (buildDocs md5Hex bucket n b).map
          (fun d => { d with provenance_id := some provId }) := by
  refine List.map_congr_left ?_
  intro d hd
  rw [if_pos (List.mem_map_of_mem _ hd)]

theorem stamp_old_docs (provId : Nat) (docs : List Documents) (ids : List Nat)
    (h : ∀ d ∈ docs, d.id ∉ ids) :
    docs.map (fun d =>
        if d.id ∈ ids then { d with provenance_id := some provId } else d)
      = docs := by
  have h1 : docs.map (fun d =>
        if d.id ∈ ids then { d with provenance_id := some provId } else d)
      = docs.map (fun d => d) := by
    refine List.map_congr_left ?_
    intro d hd
    rw [if_neg (h d hd)]
  rw [h1, List.map_id']

theorem assign_old_docs (w : Nat) (docs : List Documents) (ids : List Nat)
    (h : ∀ d ∈ docs, d.id ∉ ids) :
    docs.map (assignWork w ids) = docs := by
  have h1 : docs.map (assignWork w ids) = docs.map (fun d => d) := by
    refine List.map_congr_left ?_
    intro d hd
    exact assignWork_of_not_mem ids w d (h d hd)
  rw [h1, List.map_id']

theorem upload_directory_spec (db : DB) (files : List PdfFile)
    (comment : Option String)
    (hids : DocIdsBounded db)
    (hfresh : ∀ f ∈ files.filter uploadOk, ¬ hashPresent db (md5Hex f.content))
    (hdist : (files.filter uploadOk).Pairwise
      fun a c => md5Hex a.content ≠ md5Hex c.content)
    (hne : files.filter uploadOk ≠ []) :
    upload_directory md5Hex bucket uploadOk version compute personnel
        db files comment
      = { documents := db.documents ++
            (ingestFresh md5Hex bucket db.nextProvenanceId db.nextDocumentId
              db.nextWorkId (files.filter uploadOk)).1,
          works := db.works ++
            (ingestFresh md5Hex bucket db.nextProvenanceId db.nextDocumentId
              db.nextWorkId (files.filter uploadOk)).2,
          provenances := db.provenances ++
            [{ id := db.nextProvenanceId, pipeline_name := "Document Upload",
               version := version, compute := compute, personnel := personnel,
               comment := comment }],
          nextDocumentId := db.nextDocumentId + (files.filter uploadOk).length,
          nextWorkId := db.nextWorkId + (files.filter uploadOk).length,
          nextProvenanceId := db.nextProvenanceId + 1 } := by
  have hfilesne : files ≠ [] := by
    intro h
    rw [h] at hne
    exact hne rfl
  have hfe : files.isEmpty = false := List.isEmpty_eq_false.mpr hfilesne
  have hse : (files.filter uploadOk).isEmpty = false :=
    List.isEmpty_eq_false.mpr hne
  have hcdr := cdr_fresh md5Hex bucket (files.filter uploadOk) db hfresh hdist
  have hblen := buildDocs_length md5Hex bucket (files.filter uploadOk)
    db.nextDocumentId
  have hbne : (buildDocs md5Hex bucket db.nextDocumentId
      (files.filter uploadOk)).isEmpty = false := by
    rw [List.isEmpty_eq_false]
    intro hb
    rw [hb] at hblen
    exact hne (List.eq_nil_of_length_eq_zero hblen.symm)
  have hnotmem : ∀ d ∈ db.documents,
      d.id ∉ (buildDocs md5Hex bucket db.nextDocumentId
        (files.filter uploadOk)).map (·.id) := by
    intro d hd hmem
    have h1 := buildDocs_mem_ids md5Hex bucket (files.filter uploadOk)
      db.nextDocumentId d.id hmem
    have h2 := hids d hd
    omega
  simp only [upload_directory, upload_pdfs, hfe, hse, hcdr, hbne,
    Bool.false_eq_true, if_false, create_provenance_record]
  rw [foldl_iwfd _ _ _ (buildDocs_ids_pairwise md5Hex bucket
    (files.filter uploadOk) db.nextDocumentId)]
  simp only [List.map_append]
  rw [stamp_old_docs db.nextProvenanceId db.documents _ hnotmem,
    stamp_buildDocs md5Hex bucket db.nextProvenanceId]
  refine DB.ext ?_ ?_ rfl rfl ?_ rfl
  · rw [assign_old_docs db.nextWorkId db.documents _ hnotmem,
      ingest_docs_eq md5Hex bucket db.nextProvenanceId]
  · rw [ingest_works_eq md5Hex bucket db.nextProvenanceId, hblen]
  · rw [hblen]

theorem ingestFresh_doc_len (provId : Nat) : ∀ (b : List PdfFile) (n w : Nat),
    (ingestFresh md5Hex bucket provId n w b).1.length = b.length := by
  intro b
  induction b with
  | nil => intro n w; rfl
  | cons f rest ih => intro n w; simp [ingestFresh, ih (n + 1) (w + 1)]

theorem ingestFresh_doc_prov (provId : Nat) : ∀ (b : List PdfFile) (n w : Nat),
    ∀ d ∈ (ingestFresh md5Hex bucket provId n w b).1,
      d.provenance_id = some provId := by
  intro b
  induction b with
  | nil => intro n w d hd; cases hd
  | cons f rest ih =>
    intro n w d hd
    rcases List.mem_cons.mp hd with hd | hd
    · subst hd; rfl
    · exact ih (n + 1) (w + 1) d hd

theorem ingestFresh_mem_hash (provId : Nat) : ∀ (b : List PdfFile) (n w : Nat),
    ∀ d ∈ (ingestFresh md5Hex bucket provId n w b).1,
      ∃ g ∈ b, d.hash_data = md5Hex g.content := by
  intro b
  induction b with
  | nil => intro n w d hd; cases hd
  | cons f rest ih =>
    intro n w d hd
    rcases List.mem_cons.mp hd with hd | hd
    · exact ⟨f, List.mem_cons_self f rest, by rw [hd]⟩
    · rcases ih (n + 1) (w + 1) d hd with ⟨g, hg, hgh⟩
      exact ⟨g, List.mem_cons_of_mem f hg, hgh⟩

theorem ingestFresh_linked (provId : Nat) : ∀ (b : List PdfFile) (n w : Nat),
    ∀ g ∈ b,
      ∃ d ∈ (ingestFresh md5Hex bucket provId n w b).1,
      ∃ wk ∈ (ingestFresh md5Hex bucket provId n w b).2,
        d.hash_data = md5Hex g.content ∧ d.provenance_id = some provId ∧
        d.work_id = some wk.id ∧ wk.initial_document_id = some d.id ∧
        wk.primary_document_id = some d.id ∧ wk.provenance_id = some provId := by
  intro b
  induction b with
  | nil => intro n w g hg; cases hg
  | cons f rest ih =>
    intro n w g hg
    rcases List.mem_cons.mp hg with hg | hg
    · subst hg
      exact ⟨_, List.mem_cons_self _ _, _, List.mem_cons_self _ _,
        rfl, rfl, rfl, rfl, rfl, rfl⟩
    · rcases ih (n + 1) (w + 1) g hg with ⟨d, hd, wk, hwk, hprops⟩
      exact ⟨d, List.mem_cons_of_mem _ hd, wk, List.mem_cons_of_mem _ hwk, hprops⟩

end UploaderLemmas

section Claims

variable (md5Hex : List Nat → String) (bucket : String) (uploadOk : PdfFile → Bool)
variable (version compute personnel : String)

/-- C1: ingesting digest-equal content across two runs of
create_document_records leaves at most one document row with that
hash_data (the unique-index invariant is preserved), and when every file
of the second run is digest-equal to a file of the first, every colliding
insert of the second run is rolled back: it reports zero new documents and
leaves the state exactly as the first run left it; the operation is total,
so no error reaches the caller. -/
theorem dedup_idempotent (db : DB) (b1 b2 : List PdfFile) (f1 f2 : PdfFile)
    (hu : UniqueHashes db) (hf1 : f1 ∈ b1) (hf2 : f2 ∈ b2)
    (heq : md5Hex f2.content = md5Hex f1.content) :
    countHash (create_document_records md5Hex bucket
        (create_document_records md5Hex bucket db b1).2 b2).2
        (md5Hex f2.content) ≤ 1 ∧
    UniqueHashes (create_document_records md5Hex bucket
        (create_document_records md5Hex bucket db b1).2 b2).2 ∧
    ((∀ f ∈ b2, ∃ g ∈ b1, md5Hex f.content = md5Hex g.content) →
      create_document_records md5Hex bucket
          (create_document_records md5Hex bucket db b1).2 b2
        = ([], (create_document_records md5Hex bucket db b1).2)) := by
  have h1 := cdr_uniqueHashes md5Hex bucket b1 db hu
  have h2 := cdr_uniqueHashes md5Hex bucket b2 _ h1
  refine ⟨countHash_le_one h2 _, h2, ?_⟩
  intro hall
  apply cdr_all_present
  intro f hf
  rcases hall f hf with ⟨g, hg, hfg⟩
  rw [hfg]
  exact hashPresent_cdr_of_mem md5Hex bucket b1 db g hg

/-- Witness for C1 at a concrete input: an empty store, a first batch with
one file and a second batch with a digest-equal copy under another name. -/
theorem dedup_idempotent_witness :
    (UniqueHashes emptyDB ∧ wFileA ∈ [wFileA] ∧ wFileACopy ∈ [wFileACopy] ∧
      wMd5 wFileACopy.content = wMd5 wFileA.content) ∧
    (countHash (create_document_records wMd5 "bkt"
          (create_document_records wMd5 "bkt" emptyDB [wFileA]).2 [wFileACopy]).2
        (wMd5 wFileACopy.content) ≤ 1 ∧
      UniqueHashes (create_document_records wMd5 "bkt"
          (create_document_records wMd5 "bkt" emptyDB [wFileA]).2 [wFileACopy]).2 ∧
      ((∀ f ∈ [wFileACopy], ∃ g ∈ [wFileA], wMd5 f.content = wMd5 g.content) →
        create_document_records wMd5 "bkt"
            (create_document_records wMd5 "bkt" emptyDB [wFileA]).2 [wFileACopy]
          = ([], (create_document_records wMd5 "bkt" emptyDB [wFileA]).2))) :=
  ⟨⟨by decide, by decide, by decide, by decide⟩,
    dedup_idempotent wMd5 "bkt" emptyDB [wFileA] [wFileACopy] wFileA wFileACopy
      (by decide) (by decide) (by decide) (by decide)⟩

/-- C2: a batch whose create_document_records step returns no new
documents terminates before any provenance or work record is written:
the documents, works and provenance tables are all left unchanged. -/
theorem noop_batch (db : DB) (files : List PdfFile) (comment : Option String)
    (hempty : (create_document_records md5Hex bucket db
        (upload_pdfs uploadOk files).1).1 = []) :
    (upload_directory md5Hex bucket uploadOk version compute personnel
        db files comment).documents = db.documents ∧
    (upload_directory md5Hex bucket uploadOk version compute personnel
        db files comment).works = db.works ∧
    (upload_directory md5Hex bucket uploadOk version compute personnel
        db files comment).provenances = db.provenances := by
  have hdb := cdr_eq_of_no_new md5Hex bucket (upload_pdfs uploadOk files).1 db hempty
  by_cases h1 : files.isEmpty
  · simp [upload_directory, h1]
  · by_cases h2 : ((upload_pdfs uploadOk files).1).isEmpty
    · simp [upload_directory, h1, h2]
    · simp [upload_directory, h1, h2, hempty, hdb]

/-- Witness for C2 at a concrete input: a store already holding the only
file of the batch, so the batch is all-duplicates. -/
theorem noop_batch_witness :
    (create_document_records wMd5 "bkt" wDB1
        (upload_pdfs wUploadAll [wFileACopy]).1).1 = [] ∧
    ((upload_directory wMd5 "bkt" wUploadAll "v" "c" "p"
        wDB1 [wFileACopy] none).documents = wDB1.documents ∧
    (upload_directory wMd5 "bkt" wUploadAll "v" "c" "p"
        wDB1 [wFileACopy] none).works = wDB1.works ∧
    (upload_directory wMd5 "bkt" wUploadAll "v" "c" "p"
        wDB1 [wFileACopy] none).provenances = wDB1.provenances) :=
  ⟨by decide,
    noop_batch wMd5 "bkt" wUploadAll "v" "c" "p" wDB1 [wFileACopy] none (by decide)⟩

/-- C3: a batch of previously unseen, pairwise digest-distinct files, all
of which upload successfully, adds exactly one provenance row and exactly
one document row per file, and every new document row is stamped with the
id of that single provenance row. -/
theorem provenance_cardinality (db : DB) (files : List PdfFile)
    (comment : Option String)
    (hids : DocIdsBounded db)
    (hall : ∀ f ∈ files, uploadOk f = true)
    (hfresh : ∀ f ∈ files, ¬ hashPresent db (md5Hex f.content))
    (hdist : files.Pairwise fun a c => md5Hex a.content ≠ md5Hex c.content)
    (hne : files ≠ []) :
    ∃ p : Provenance,
      (upload_directory md5Hex bucket uploadOk version compute personnel
          db files comment).provenances = db.provenances ++ [p] ∧
      (upload_directory md5Hex bucket uploadOk version compute personnel
          db files comment).documents.length
        = db.documents.length + files.length ∧
      (∀ d ∈ (upload_directory md5Hex bucket uploadOk version compute personnel
          db files comment).documents.drop db.documents.length,
        d.provenance_id = some p.id) := by
  have hfilter : files.filter uploadOk = files := List.filter_eq_self.mpr hall
  have hspec := upload_directory_spec md5Hex bucket uploadOk version compute
    personnel db files comment hids (by rw [hfilter]; exact hfresh)
    (by rw [hfilter]; exact hdist) (by rw [hfilter]; exact hne)
  rw [hfilter] at hspec
  rw [hspec]
  refine ⟨_, rfl, ?_, ?_⟩
  · simp [List.length_append, ingestFresh_doc_len]
  · intro d hd
    rw [List.drop_left] at hd
    exact ingestFresh_doc_prov md5Hex bucket db.nextProvenanceId files
      db.nextDocumentId db.nextWorkId d hd

/-- Witness for C3 at a concrete input: two fresh digest-distinct files
ingested into an empty store. -/
theorem provenance_cardinality_witness :
    (DocIdsBounded emptyDB ∧ (∀ f ∈ [wFileA, wFileB], wUploadAll f = true) ∧
      (∀ f ∈ [wFileA, wFileB], ¬ hashPresent emptyDB (wMd5 f.content)) ∧
      ([wFileA, wFileB].Pairwise fun a c => wMd5 a.content ≠ wMd5 c.content) ∧
      [wFileA, wFileB] ≠ ([] : List PdfFile)) ∧
    (∃ p : Provenance,
      (upload_directory wMd5 "bkt" wUploadAll "v" "c" "p"
          emptyDB [wFileA, wFileB] none).provenances
        = emptyDB.provenances ++ [p] ∧
      (upload_directory wMd5 "bkt" wUploadAll "v" "c" "p"
          emptyDB [wFileA, wFileB] none).documents.length
        = emptyDB.documents.length + [wFileA, wFileB].length ∧
      (∀ d ∈ (upload_directory wMd5 "bkt" wUploadAll "v" "c" "p"
          emptyDB [wFileA, wFileB] none).documents.drop emptyDB.documents.length,
        d.provenance_id = some p.id)) :=
  ⟨⟨by decide, by decide, by decide, by decide, by decide⟩,
    provenance_cardinality wMd5 "bkt" wUploadAll "v" "c" "p" emptyDB
      [wFileA, wFileB] none (by decide) (by decide) (by decide) (by decide)
      (by decide)⟩

/-- C6: a per-file storage failure does not abort the batch: the failing
file lands in the failed list and no document row with its content digest
exists afterwards, while every file whose upload succeeded is still
recorded with its digest and linked as the initial and primary document of
its own new work. -/
theorem partial_batch_isolation (db : DB) (files : List PdfFile)
    (comment : Option String) (f : PdfFile)
    (hids : DocIdsBounded db)
    (hfresh : ∀ g ∈ files, ¬ hashPresent db (md5Hex g.content))
    (hdist : files.Pairwise fun a c => md5Hex a.content ≠ md5Hex c.content)
    (hf : f ∈ files) (hfail : uploadOk f = false) :
    f ∈ (upload_pdfs uploadOk files).2 ∧
    ¬ hashPresent (upload_directory md5Hex bucket uploadOk version compute
        personnel db files comment) (md5Hex f.content) ∧
    (∀ g ∈ files, uploadOk g = true →
      ∃ d ∈ (upload_directory md5Hex bucket uploadOk version compute
          personnel db files comment).documents,
      ∃ wk ∈ (upload_directory md5Hex bucket uploadOk version compute
          personnel db files comment).works,
        d.hash_data = md5Hex g.content ∧ d.work_id = some wk.id ∧
        wk.initial_document_id = some d.id ∧
        wk.primary_document_id = some d.id) := by
  have hsym : Symmetric (fun a c : PdfFile => md5Hex a.content ≠ md5Hex c.content) :=
    fun a c h he => h he.symm
  refine ⟨by simp [upload_pdfs, List.mem_filter, hf, hfail], ?_⟩
  by_cases hsucc : files.filter uploadOk = []
  · have hend : upload_directory md5Hex bucket uploadOk version compute
        personnel db files comment = db := by
      have hfe : files.isEmpty = false :=
        List.isEmpty_eq_false.mpr (List.ne_nil_of_mem hf)
      simp [upload_directory, upload_pdfs, hfe, hsucc]
    rw [hend]
    refine ⟨hfresh f hf, ?_⟩
    intro g hg hgok
    have : g ∈ files.filter uploadOk := List.mem_filter.mpr ⟨hg, hgok⟩
    rw [hsucc] at this
    cases this
  · have hspec := upload_directory_spec md5Hex bucket uploadOk version compute
      personnel db files comment hids
      (fun g hgm => hfresh g (List.mem_filter.mp hgm).1)
      (List.Pairwise.sublist (List.filter_sublist files) hdist) hsucc
    rw [hspec]
    constructor
    · rw [hashPresent_iff]
      rintro ⟨d, hd, hdh⟩
      rcases List.mem_append.mp hd with hold | hnew
      · exact (not_hashPresent_iff db _).mp (hfresh f hf) d hold hdh
      · rcases ingestFresh_mem_hash md5Hex bucket db.nextProvenanceId
          (files.filter uploadOk) db.nextDocumentId db.nextWorkId d hnew
          with ⟨g, hgmem, hgh⟩
        have hgf := (List.mem_filter.mp hgmem).1
        have hgok := (List.mem_filter.mp hgmem).2
        have hfg : f ≠ g := by
          intro he
          rw [← he] at hgok
          rw [hfail] at hgok
          cases hgok
        have hne' := List.Pairwise.forall hsym hdist hf hgf hfg
        rw [hgh] at hdh
        exact hne' hdh.symm
    · intro g hg hgok
      have hgmem : g ∈ files.filter uploadOk := List.mem_filter.mpr ⟨hg, hgok⟩
      rcases ingestFresh_linked md5Hex bucket db.nextProvenanceId
        (files.filter uploadOk) db.nextDocumentId db.nextWorkId g hgmem
        with ⟨d, hd, wk, hwk, h1, _, h3, h4, h5, _⟩
      exact ⟨d, List.mem_append_right _ hd, wk, List.mem_append_right _ hwk,
        h1, h3, h4, h5⟩

/-- Witness for C6 at a concrete input: three fresh digest-distinct files
of which the second fails to upload. -/
theorem partial_batch_isolation_witness :
    (DocIdsBounded emptyDB ∧
      (∀ g ∈ [wFileA, wFileB, wFileC], ¬ hashPresent emptyDB (wMd5 g.content)) ∧
      ([wFileA, wFileB, wFileC].Pairwise
        fun a c => wMd5 a.content ≠ wMd5 c.content) ∧
      wFileB ∈ [wFileA, wFileB, wFileC] ∧ wUploadNotB wFileB = false) ∧
    (wFileB ∈ (upload_pdfs wUploadNotB [wFileA, wFileB, wFileC]).2 ∧
      ¬ hashPresent (upload_directory wMd5 "bkt" wUploadNotB "v" "c" "p"
          emptyDB [wFileA, wFileB, wFileC] none) (wMd5 wFileB.content) ∧
      (∀ g ∈ [wFileA, wFileB, wFileC], wUploadNotB g = true →
        ∃ d ∈ (upload_directory wMd5 "bkt" wUploadNotB "v" "c" "p"
            emptyDB [wFileA, wFileB, wFileC] none).documents,
        ∃ wk ∈ (upload_directory wMd5 "bkt" wUploadNotB "v" "c" "p"
            emptyDB [wFileA, wFileB, wFileC] none).works,
          d.hash_data = wMd5 g.content ∧ d.work_id = some wk.id ∧
          wk.initial_document_id = some d.id ∧
          wk.primary_document_id = some d.id)) :=
  ⟨⟨by decide, by decide, by decide, by decide, by decide⟩,
    partial_batch_isolation wMd5 "bkt" wUploadNotB "v" "c" "p" emptyDB
      [wFileA, wFileB, wFileC] none wFileB (by decide) (by decide) (by decide)
      (by decide) (by decide)⟩

/-- C4: initial_work_for_document on a freshly created document with no
prior work creates a work whose initial and primary document ids both
equal the document's id, appends exactly that work to the works table, and
leaves the document's back-reference set to the new work's id in the
committed state. -/
theorem initial_work_linkage (db : DB) (docId provId : Nat)
    (hdoc : ∃ d ∈ db.documents, d.id = docId ∧ d.work_id = none) :
    (initial_work_for_document db docId provId).1.initial_document_id
      = some docId ∧
    (initial_work_for_document db docId provId).1.primary_document_id
      = some docId ∧
    (initial_work_for_document db docId provId).2.works
      = db.works ++ [(initial_work_for_document db docId provId).1] ∧
    ∃ d ∈ (initial_work_for_document db docId provId).2.documents,
      d.id = docId ∧
      d.work_id = some (initial_work_for_document db docId provId).1.id := by
  refine ⟨rfl, rfl, rfl, ?_⟩
  rcases hdoc with ⟨d, hd, hdid, _⟩
  refine ⟨{ d with work_id := some db.nextWorkId }, ?_, hdid, rfl⟩
  have h1 : { d with work_id := some db.nextWorkId }
      = (fun x : Documents => if x.id = docId
          then { x with work_id := some db.nextWorkId } else x) d := by
    simp [hdid]
  rw [h1]
  exact List.mem_map_of_mem _ hd

/-- Witness for C4 at a concrete input: the store holding one document
with id 0 and no work. -/
theorem initial_work_linkage_witness :
    (∃ d ∈ wDB1.documents, d.id = 0 ∧ d.work_id = none) ∧
    ((initial_work_for_document wDB1 0 5).1.initial_document_id = some 0 ∧
    (initial_work_for_document wDB1 0 5).1.primary_document_id = some 0 ∧
    (initial_work_for_document wDB1 0 5).2.works
      = wDB1.works ++ [(initial_work_for_document wDB1 0 5).1] ∧
    ∃ d ∈ (initial_work_for_document wDB1 0 5).2.documents,
      d.id = 0 ∧ d.work_id = some (initial_work_for_document wDB1 0 5).1.id) :=
  ⟨by decide, initial_work_linkage wDB1 0 5 (by decide)⟩

/-- C5: link_documents_to_work is idempotent: relinking the same document
ids to the same work a second time leaves the state exactly as after the
first call. -/
theorem relink_idempotent (db : DB) (document_ids : List Nat) (workId : Nat) :
    link_documents_to_work (link_documents_to_work db document_ids workId)
        document_ids workId
      = link_documents_to_work db document_ids workId := by
  simp only [link_documents_to_work, List.map_map]
  refine DB.ext ?_ rfl rfl rfl rfl rfl
  refine List.map_congr_left ?_
  intro d _
  simp only [Function.comp_apply]
  by_cases h : d.id ∈ document_ids
  · simp [h]
  · simp [h]

/-- C8: link_documents_to_work tolerates unknown ids: an id with no
matching document row raises no error and creates no row, while every id
that does match a row still gets the target work id committed. -/
theorem link_tolerates_unknown_ids (db : DB) (document_ids : List Nat)
    (workId badId : Nat)
    (hbad : badId ∈ document_ids)
    (hmiss : ∀ d ∈ db.documents, d.id ≠ badId) :
    (link_documents_to_work db document_ids workId).documents.length
      = db.documents.length ∧
    (∀ d ∈ (link_documents_to_work db document_ids workId).documents,
      d.id ≠ badId) ∧
    (∀ d ∈ db.documents, d.id ∈ document_ids →
      { d with work_id := some workId }
        ∈ (link_documents_to_work db document_ids workId).documents) ∧
    (link_documents_to_work db document_ids workId).works = db.works ∧
    (link_documents_to_work db document_ids workId).provenances
      = db.provenances := by
  refine ⟨by simp [link_documents_to_work], ?_, ?_, rfl, rfl⟩
  · intro d hd
    rcases List.mem_map.mp hd with ⟨e, he, hed⟩
    subst hed
    by_cases h : e.id ∈ document_ids
    · rw [if_pos h]; exact hmiss e he
    · rw [if_neg h]; exact hmiss e he
  · intro d hd hmem
    have h1 : { d with work_id := some workId }
        = (fun x : Documents => if x.id ∈ document_ids
            then { x with work_id := some workId } else x) d := by
      simp [hmem]
    rw [h1]
    exact List.mem_map_of_mem _ hd

/-- Witness for C8 at a concrete input: the id list [0, 99] where only id
0 has a row. -/
theorem link_tolerates_unknown_ids_witness :
    ((99 : Nat) ∈ [0, 99] ∧ (∀ d ∈ wDB1.documents, d.id ≠ 99)) ∧
    ((link_documents_to_work wDB1 [0, 99] 7).documents.length
      = wDB1.documents.length ∧
    (∀ d ∈ (link_documents_to_work wDB1 [0, 99] 7).documents, d.id ≠ 99) ∧
    (∀ d ∈ wDB1.documents, d.id ∈ [0, 99] →
      { d with work_id := some 7 }
        ∈ (link_documents_to_work wDB1 [0, 99] 7).documents) ∧
    (link_documents_to_work wDB1 [0, 99] 7).works = wDB1.works ∧
    (link_documents_to_work wDB1 [0, 99] 7).provenances = wDB1.provenances) :=
  ⟨⟨by decide, by decide⟩,
    link_tolerates_unknown_ids wDB1 [0, 99] 7 99 (by decide) (by decide)⟩

/-- C10: the stored s3uri depends only on the bucket and the file's
basename: two fresh files with equal basenames but digest-distinct
contents ingested in one batch yield two document rows with distinct
hash_data and identical s3uri values, so s3uri is not unique across
document rows. -/
theorem s3uri_not_content_addressed (db : DB) (f1 f2 : PdfFile)
    (hbase : basename f1.path = basename f2.path)
    (hneq : md5Hex f1.content ≠ md5Hex f2.content)
    (h1 : ¬ hashPresent db (md5Hex f1.content))
    (h2 : ¬ hashPresent db (md5Hex f2.content)) :
    ∃ d1 d2 : Documents,
      (create_document_records md5Hex bucket db [f1, f2]).1 = [d1, d2] ∧
      (create_document_records md5Hex bucket db [f1, f2]).2.documents
        = db.documents ++ [d1, d2] ∧
      d1.hash_data ≠ d2.hash_data ∧
      d1.s3uri = d2.s3uri ∧
      d1.s3uri = "s3://" ++ bucket ++ "/" ++ ("pdfs/" ++ basename f1.path) := by
  have hdist : [f1, f2].Pairwise
      fun a c => md5Hex a.content ≠ md5Hex c.content := by
    simp [List.pairwise_cons, hneq]
  have hfresh : ∀ f ∈ [f1, f2], ¬ hashPresent db (md5Hex f.content) := by
    intro f hf
    rcases List.mem_cons.mp hf with h | h
    · rw [h]; exact h1
    · rw [List.mem_singleton.mp h]; exact h2
  have hc := cdr_fresh md5Hex bucket [f1, f2] db hfresh hdist
  refine ⟨⟨db.nextDocumentId, md5Hex f1.content, s3Uri bucket f1, none, none⟩,
    ⟨db.nextDocumentId + 1, md5Hex f2.content, s3Uri bucket f2, none, none⟩,
    ?_, ?_, hneq, ?_, rfl⟩
  · rw [hc]
    simp [buildDocs]
  · rw [hc]
    simp [buildDocs]
  · show s3Uri bucket f1 = s3Uri bucket f2
    simp [s3Uri, s3Key, hbase]

/-- Witness for C10 at a concrete input: two files named a.pdf in
different directories with different first bytes. -/
theorem s3uri_not_content_addressed_witness :
    (basename wSameNameX.path = basename wSameNameY.path ∧
      wMd5 wSameNameX.content ≠ wMd5 wSameNameY.content ∧
      ¬ hashPresent emptyDB (wMd5 wSameNameX.content) ∧
      ¬ hashPresent emptyDB (wMd5 wSameNameY.content)) ∧
    (∃ d1 d2 : Documents,
      (create_document_records wMd5 "bkt" emptyDB [wSameNameX, wSameNameY]).1
        = [d1, d2] ∧
      (create_document_records wMd5 "bkt" emptyDB
          [wSameNameX, wSameNameY]).2.documents
        = emptyDB.documents ++ [d1, d2] ∧
      d1.hash_data ≠ d2.hash_data ∧
      d1.s3uri = d2.s3uri ∧
      d1.s3uri = "s3://" ++ "bkt" ++ "/" ++ ("pdfs/" ++ basename wSameNameX.path)) :=
  ⟨⟨by decide, by decide, by decide, by decide⟩,
    s3uri_not_content_addressed wMd5 "bkt" emptyDB wSameNameX wSameNameY
      (by decide) (by decide) (by decide) (by decide)⟩

end Claims

end DsstEtl

namespace RTransparent

theorem chunksOf_nil (n : Nat) : chunksOf n [] = [] := by
  rw [chunksOf]
  simp

theorem chunksOf_cons (n : Nat) (hn : 0 < n)
    (data : List RTransparentPublication) (hd : data ≠ []) :
    chunksOf n data = data.take n :: chunksOf n (data.drop n) := by
  rw [chunksOf]
  rw [dif_neg ?_]
  push_neg
  exact ⟨Nat.pos_iff_ne_zero.mp hn, hd⟩

theorem upload_data_eq (n : Nat) (hn : 0 < n) :
    ∀ (k : Nat) (data : List RTransparentPublication), data.length ≤ k →
    ∀ db : RTDB, upload_data db data n
      = { rtransparent_publication :=
            db.rtransparent_publication ++ data.map toPublication } := by
  intro k
  induction k with
  | zero =>
    intro data hlen db
    have hd : data = [] := List.eq_nil_of_length_eq_zero (Nat.le_zero.mp hlen)
    subst hd
    simp [upload_data, chunksOf_nil]
  | succ k ih =>
    intro data hlen db
    by_cases hd : data = []
    · subst hd
      simp [upload_data, chunksOf_nil]
    · have hlen2 : (data.drop n).length ≤ k := by
        rw [List.length_drop]
        have h1 : 0 < data.length := List.length_pos.mpr hd
        omega
      have hstep := ih (data.drop n) hlen2
        ⟨db.rtransparent_publication ++ (data.take n).map toPublication⟩
      rw [upload_data] at hstep ⊢
      rw [chunksOf_cons n hn data hd, List.foldl_cons]
      simp only [] at hstep ⊢
      rw [hstep]
      refine congrArg RTDB.mk ?_
      rw [List.append_assoc, ← List.map_append, List.take_append_drop]

/-- C9: every RTransparentPublication row inserted by upload_data has its
work_id and provenance_id overwritten with None before the bulk insert,
regardless of the values in the input rows: the rows appended by a run are
exactly the input rows normalized by toPublication, and each of them
carries no work reference and no provenance reference. -/
theorem rtransparent_rows_unlinked (db : RTDB)
    (data : List RTransparentPublication) (n : Nat) (hn : 0 < n) :
    (upload_data db data n).rtransparent_publication
      = db.rtransparent_publication ++ data.map toPublication ∧
    ∀ p ∈ (upload_data db data n).rtransparent_publication.drop
        db.rtransparent_publication.length,
      p.work_id = none ∧ p.provenance_id = none := by
  have he := upload_data_eq n hn data.length data (le_refl _) db
  rw [he]
  refine ⟨rfl, ?_⟩
  intro p hp
  rw [List.drop_left] at hp
  rcases List.mem_map.mp hp with ⟨r, _, hrp⟩
  rw [← hrp]
  exact ⟨rfl, rfl⟩

/-- Witness for C9 at a concrete input: one row that arrives with set
work and provenance references and an array funder. -/
theorem rtransparent_rows_unlinked_witness :
    0 < 1 ∧
    ((upload_data ⟨[]⟩ [⟨some "t", FunderValue.array ["a", "b"], some 3, some 4⟩]
        1).rtransparent_publication
      = ([] : List RTransparentPublication) ++
          [⟨some "t", FunderValue.array ["a", "b"], some 3, some 4⟩].map toPublication ∧
    ∀ p ∈ (upload_data ⟨[]⟩
        [⟨some "t", FunderValue.array ["a", "b"], some 3, some 4⟩]
        1).rtransparent_publication.drop
        ([] : List RTransparentPublication).length,
      p.work_id = none ∧ p.provenance_id = none) :=
  ⟨by decide,
    rtransparent_rows_unlinked ⟨[]⟩
      [⟨some "t", FunderValue.array ["a", "b"], some 3, some 4⟩] 1 (by decide)⟩

end RTransparent

namespace Cli

/-- C7 (code evaluation at the failing input): when the input path is not
a directory, both CLI mains print an error and return normally, so the
process exit status is 0 — not non-zero as the spec and the hhs_doi_cli
docstring (which promises a ValueError) state. -/
theorem cli_missing_dir_exit_zero :
    exitCode (filter_main false) = 0 ∧
    (∀ output_exists new_run : Bool,
      exitCode (hhs_doi_main false output_exists new_run) = 0) :=
  ⟨rfl, fun _ _ => rfl⟩

end Cli
